import Mathlib

/-!
# Verification of the CSV → fixed-width address-record converter

A shallow embedding of `src/main.rs`, a Rust port of a COBOL program that
reads comma-separated address records and writes them as fixed-width lines.

Rust strings are UTF-8: we model a string as a `List Char` together with the
UTF-8 byte size of each character (`Char.utf8Size`).  This matters because the
source mixes byte-level and character-level operations:

* `s.len()` counts **bytes**;
* `s[..width]` takes the first `width` **bytes** and panics when `width` is
  not a character boundary (modelled as `Option.none`);
* `format!("{:<width$}", s)` pads based on the **character** count.

For ASCII text the two measures coincide.
-/

namespace CsvConverter

/-- Byte length of a Rust string (`str::len`): the sum of the UTF-8 sizes of
its characters. -/
def byteLen (s : List Char) : Nat :=
  (s.map Char.utf8Size).sum

/-- Byte slicing `s[..n]` (`str::get(..n)` semantics): take the characters
making up the first `n` bytes; `none` when `n` falls strictly inside a
multi-byte character, which in the source is a panic of the slice operator. -/
def takeBytes : List Char → Nat → Option (List Char)
  | _, 0 => some []
  | [], _ + 1 => none
  | c :: cs, n + 1 =>
    if c.utf8Size ≤ n + 1 then
      (takeBytes cs (n + 1 - c.utf8Size)).map (fun p => c :: p)
    else
      none

/-- `pad_right` from the source: if the byte length is at least `width`, slice
the first `width` bytes (a possible panic, hence `Option`); otherwise use
`format!("{:<width$}", s)`, which appends spaces until the **character** count
reaches `width`. -/
def pad_right (s : List Char) (width : Nat) : Option (List Char) :=
  if byteLen s ≥ width then
    takeBytes s width
  else
    some (s ++ List.replicate (width - s.length) ' ')

/-- The COBOL record layout: `(content_width, filler_width)` per field. -/
def FIELD_WIDTHS : List (Nat × Nat) :=
  [(25, 5), (15, 5), (30, 5), (15, 5), (3, 5), (10, 38)]

/-- The six string fields of an address record. -/
structure AddressRecord where
  last_name : List Char
  first_name : List Char
  street : List Char
  city : List Char
  state : List Char
  zip : List Char
  deriving Repr, DecidableEq

/-- The field list in the order `format_fixed_width` visits it. -/
def AddressRecord.fields (r : AddressRecord) : List (List Char) :=
  [r.last_name, r.first_name, r.street, r.city, r.state, r.zip]

/-- The loop body of `format_fixed_width`: for each field, append the padded
field then the filler, threading the possible panic of `pad_right`. -/
def formatFields : List (List Char) → List (Nat × Nat) → Option (List Char)
  | [], _ => some []
  | _, [] => some []
  | f :: fs, (w, fill) :: ws => do
    let p ← pad_right f w
    let q ← pad_right [] fill
    let rest ← formatFields fs ws
    pure (p ++ q ++ rest)

/-- `format_fixed_width` from the source: zip the record's fields with
`FIELD_WIDTHS` and concatenate padded content plus filler for each. -/
def format_fixed_width (r : AddressRecord) : Option (List Char) :=
  formatFields r.fields FIELD_WIDTHS

/-- Unicode `White_Space` code points, the set recognised by Rust's
`char::is_whitespace` (and hence `str::trim`). -/
def isRustWhitespace (c : Char) : Bool :=
  c.toNat ∈ ([0x9, 0xA, 0xB, 0xC, 0xD, 0x20, 0x85, 0xA0, 0x1680,
    0x2000, 0x2001, 0x2002, 0x2003, 0x2004, 0x2005, 0x2006, 0x2007,
    0x2008, 0x2009, 0x200A, 0x2028, 0x2029, 0x202F, 0x205F, 0x3000] : List Nat)

/-- `str::trim`: drop leading and trailing whitespace characters. -/
def trim (s : List Char) : List Char :=
  (((s.dropWhile isRustWhitespace).reverse).dropWhile isRustWhitespace).reverse

/-- `line.split(',')` as in the source: split on every comma, no quoting or
escaping; the empty string yields one empty part. -/
def splitComma : List Char → List (List Char)
  | [] => [[]]
  | c :: cs =>
    if c = ',' then
      [] :: splitComma cs
    else
      match splitComma cs with
      | [] => [[c]]
      | p :: ps => (c :: p) :: ps

/-- `parse_csv_line` from the source: split on commas, require exactly six
parts, trim each and assign them positionally. -/
def parse_csv_line (line : List Char) : Option AddressRecord :=
  match splitComma line with
  | [a, b, c, d, e, f] =>
    some ⟨trim a, trim b, trim c, trim d, trim e, trim f⟩
  | _ => none

/-- The observable state of the conversion loop in `process_csv`: the lines
written to the output file, the line numbers cited by warnings (in order of
emission), and the running `record_count`. -/
structure ProcState where
  outputs : List (List Char)
  warnings : List Nat
  count : Nat
  deriving Repr, DecidableEq

/-- The body of the `process_csv` loop for the line at 0-based index `i`:
skip a line that is blank after trimming; on a successful parse write the
formatted line and increment the count; on a failed parse emit a warning
citing the 1-based line number.  `none` models a panic while formatting. -/
def processStep (st : ProcState) (i : Nat) (line : List Char) :
    Option ProcState :=
  if (trim line).isEmpty then
    some st
  else
    match parse_csv_line line with
    | some record =>
      (format_fixed_width record).map fun out =>
        { outputs := st.outputs ++ [out]
          warnings := st.warnings
          count := st.count + 1 }
    | none =>
      some { st with warnings := st.warnings ++ [i + 1] }

/-- The `process_csv` loop over the remaining lines, `i` the 0-based index of
the first of them. -/
def processFrom (i : Nat) (st : ProcState) : List (List Char) → Option ProcState
  | [] => some st
  | line :: rest =>
    match processStep st i line with
    | some st2 => processFrom (i + 1) st2 rest
    | none => none

/-- `process_csv` on the list of input lines (I/O stripped away): the final
outputs, warnings and record count, or `none` if formatting panicked. -/
def process_csv (lines : List (List Char)) : Option ProcState :=
  processFrom 0 ⟨[], [], 0⟩ lines

/-- `DEFAULT_INPUT` from the source. -/
def DEFAULT_INPUT : List Char := "/nfs_dir/input/info.csv".data

/-- `DEFAULT_OUTPUT` from the source. -/
def DEFAULT_OUTPUT : List Char := "/nfs_dir/output/output.txt".data

/-- The argument handling in `main`: `args` is `env::args()`, whose element 0
is the program name.  When `args.len() > 2` the first two positional
arguments are the input and output paths, otherwise both defaults are used. -/
def select_paths (args : List (List Char)) : List Char × List Char :=
  if args.length > 2 then
    (args.getD 1 [], args.getD 2 [])
  else
    (DEFAULT_INPUT, DEFAULT_OUTPUT)

/-- A string of single-byte (ASCII) characters, for which Rust's byte-based
and character-based string operations agree. -/
def asciiStr (s : List Char) : Prop :=
  ∀ c ∈ s, c.utf8Size = 1

instance (s : List Char) : Decidable (asciiStr s) := by
  unfold asciiStr
  infer_instance

theorem asciiStr_nil : asciiStr [] := by
  intro c hc
  simp at hc

theorem asciiStr_space : (' ' : Char).utf8Size = 1 := by decide

theorem asciiStr_replicate (n : Nat) : asciiStr (List.replicate n ' ') := by
  intro c hc
  rw [List.eq_of_mem_replicate hc]
  decide

theorem asciiStr_append {s t : List Char} (hs : asciiStr s) (ht : asciiStr t) :
    asciiStr (s ++ t) := by
  intro c hc
  rcases List.mem_append.mp hc with h | h
  · exact hs c h
  · exact ht c h

theorem asciiStr_take {s : List Char} (hs : asciiStr s) (n : Nat) :
    asciiStr (s.take n) :=
  fun c hc => hs c (List.mem_of_mem_take hc)

theorem byteLen_ascii {s : List Char} (hs : asciiStr s) :
    byteLen s = s.length := by
  induction s with
  | nil => rfl
  | cons c cs ih =>
    have hc : c.utf8Size = 1 := hs c (List.mem_cons_self c cs)
    have hcs : asciiStr cs := fun d hd => hs d (List.mem_cons_of_mem c hd)
    have hrec := ih hcs
    simp only [byteLen, List.map_cons, List.sum_cons, List.length_cons, hc]
    simp only [byteLen] at hrec
    omega

theorem takeBytes_ascii {s : List Char} (hs : asciiStr s) :
    ∀ n : Nat, n ≤ s.length → takeBytes s n = some (s.take n) := by
  induction s with
  | nil =>
    intro n hn
    have hn0 : n = 0 := Nat.le_zero.mp hn
    subst hn0
    rfl
  | cons c cs ih =>
    intro n hn
    cases n with
    | zero => rfl
    | succ m =>
      have hc : c.utf8Size = 1 := hs c (List.mem_cons_self c cs)
      have hcs : asciiStr cs := fun d hd => hs d (List.mem_cons_of_mem c hd)
      have hm : m ≤ cs.length := by simpa using hn
      simp [takeBytes, hc, ih hcs m hm]

/-- Characterisation of `pad_right` on ASCII strings: no panic, truncation to
the first `width` characters when long enough, otherwise space padding. -/
theorem pad_right_ascii {s : List Char} (hs : asciiStr s) (width : Nat) :
    pad_right s width =
      some (if width ≤ s.length then s.take width
            else s ++ List.replicate (width - s.length) ' ') := by
  unfold pad_right
  rw [byteLen_ascii hs]
  by_cases h : width ≤ s.length
  · simp [h, takeBytes_ascii hs width h]
  · simp [h, Nat.not_le.mp h, Nat.le_of_lt (Nat.not_le.mp h)]

/-- On ASCII strings `pad_right` always succeeds, returns exactly `width`
characters, and the result is again ASCII. -/
theorem pad_right_ascii_out {s : List Char} (hs : asciiStr s) (width : Nat) :
    ∃ r, pad_right s width = some r ∧ r.length = width ∧ asciiStr r := by
  rw [pad_right_ascii hs width]
  by_cases h : width ≤ s.length
  · exact ⟨s.take width, by simp [h],
      by simp [List.length_take, Nat.min_eq_left h], asciiStr_take hs width⟩
  · refine ⟨s ++ List.replicate (width - s.length) ' ', by simp [h], ?_,
      asciiStr_append hs (asciiStr_replicate _)⟩
    simp
    omega

theorem length_eq_six {α : Type} {l : List α} (h : l.length = 6) :
    ∃ a b c d e f, l = [a, b, c, d, e, f] := by
  rcases l with _ | ⟨a, _ | ⟨b, _ | ⟨c, _ | ⟨d, _ | ⟨e, _ | ⟨f, _ | ⟨g, t⟩⟩⟩⟩⟩⟩⟩
  · simp at h
  · simp at h
  · simp at h
  · simp at h
  · simp at h
  · simp at h
  · exact ⟨a, b, c, d, e, f, rfl⟩
  · simp at h

theorem parse_eq_of_split {line a b c d e f : List Char}
    (h : splitComma line = [a, b, c, d, e, f]) :
    parse_csv_line line =
      some ⟨trim a, trim b, trim c, trim d, trim e, trim f⟩ := by
  simp [parse_csv_line, h]

theorem parse_none_iff (line : List Char) :
    parse_csv_line line = none ↔ (splitComma line).length ≠ 6 := by
  constructor
  · intro h hlen
    obtain ⟨a, b, c, d, e, f, heq⟩ := length_eq_six hlen
    rw [parse_eq_of_split heq] at h
    cases h
  · intro hne
    unfold parse_csv_line
    split
    · rename_i a b c d e f heq
      exact absurd (by rw [heq]; rfl) hne
    · rfl

/-- C2 counterexample: the claim quantifies over every string, but `pad_right`
truncates by **bytes**.  `"éa"` has 2 characters and 3 bytes; with width 2 the
claim demands the first 2 characters `"éa"`, yet the code returns the first
2 bytes, the single character `"é"`. -/
theorem pad_right_truncation_cex :
    ("éa".data).length ≥ 2 ∧
    pad_right "éa".data 2 = some ['é'] ∧
    ['é'] ≠ ("éa".data).take 2 := by
  decide

/-- C2 (amended): for ASCII strings, `pad_right s w` returns the first `w`
characters of `s` when `s` has at least `w` characters, and otherwise `s`
followed by enough spaces to reach exactly `w` characters. -/
theorem pad_right_spec {s : List Char} (hs : asciiStr s) (width : Nat) :
    (width ≤ s.length → pad_right s width = some (s.take width)) ∧
    (s.length < width →
      pad_right s width = some (s ++ List.replicate (width - s.length) ' ')) := by
  constructor
  · intro h
    rw [pad_right_ascii hs width, if_pos h]
  · intro h
    rw [pad_right_ascii hs width, if_neg (Nat.not_le.mpr h)]

/-- Witness for C2: truncation at width 2 on `"abcd"` and padding at width 4
on `"ab"`. -/
theorem pad_right_spec_witness :
    pad_right "abcd".data 2 = some (("abcd".data).take 2) ∧
    pad_right "ab".data 4 =
      some ("ab".data ++ List.replicate (4 - ("ab".data).length) ' ') :=
  ⟨(pad_right_spec (by decide) 2).1 (by decide),
   (pad_right_spec (by decide) 4).2 (by decide)⟩

/-- C5 counterexample: `pad_right` is not total on non-ASCII input.  `"é"` is
one character of 2 bytes; with width 1 the slice `s[..1]` falls inside the
character and the source panics (modelled as `none`). -/
theorem pad_right_total_cex : pad_right "é".data 1 = none := by
  decide

/-- C5 (amended): on ASCII strings `pad_right` never fails and always returns
a string of exactly the requested width. -/
theorem pad_right_total_ascii {s : List Char} (hs : asciiStr s) (width : Nat) :
    ∃ r, pad_right s width = some r ∧ r.length = width := by
  obtain ⟨r, h1, h2, _⟩ := pad_right_ascii_out hs width
  exact ⟨r, h1, h2⟩

/-- Witness for C5: `pad_right "hi" 5` succeeds with a 5-character result. -/
theorem pad_right_total_ascii_witness :
    ∃ r, pad_right "hi".data 5 = some r ∧ r.length = 5 :=
  pad_right_total_ascii (by decide) 5

/-- C9 counterexample: padding is not idempotent on non-ASCII input.
`pad_right "é" 3` pads by character count to `"é  "` (4 bytes); applying
`pad_right _ 3` again truncates those 4 bytes to 3, giving `"é "`. -/
theorem pad_right_idem_cex :
    pad_right "é".data 3 = some ('é' :: ' ' :: ' ' :: []) ∧
    (pad_right "é".data 3).bind (fun r => pad_right r 3) =
      some ('é' :: ' ' :: []) ∧
    ('é' :: ' ' :: []) ≠ ('é' :: ' ' :: ' ' :: []) := by
  decide

/-- C9 (amended): on ASCII strings padding is idempotent on width:
padding the result of `pad_right s w` to width `w` again changes nothing. -/
theorem pad_right_idem_ascii {s : List Char} (hs : asciiStr s) (width : Nat) :
    (pad_right s width).bind (fun r => pad_right r width) =
      pad_right s width := by
  obtain ⟨r, h1, h2, h3⟩ := pad_right_ascii_out hs width
  rw [h1]
  show pad_right r width = some r
  subst h2
  rw [pad_right_ascii h3 r.length, if_pos (Nat.le_refl _), List.take_length]

/-- Witness for C9: idempotence at `"hi"` and width 5. -/
theorem pad_right_idem_ascii_witness :
    (pad_right "hi".data 5).bind (fun r => pad_right r 5) =
      pad_right "hi".data 5 :=
  pad_right_idem_ascii (by decide) 5

/-- C3: `parse_csv_line` fails exactly when the comma split does not have six
parts, and on success assigns the six parts, trimmed, positionally. -/
theorem parse_csv_line_spec (line : List Char) :
    (parse_csv_line line = none ↔ (splitComma line).length ≠ 6) ∧
    (∀ a b c d e f, splitComma line = [a, b, c, d, e, f] →
      parse_csv_line line =
        some ⟨trim a, trim b, trim c, trim d, trim e, trim f⟩) :=
  ⟨parse_none_iff line, fun _ _ _ _ _ _ h => parse_eq_of_split h⟩

/-- Witness for C3 at a concrete line with whitespace around parts and an
empty final part. -/
theorem parse_csv_line_spec_witness :
    parse_csv_line (String.data " Smith , John ,a,b,c,") =
      some ⟨"Smith".data, "John".data, "a".data, "b".data, "c".data, []⟩ := by
  have h := (parse_csv_line_spec (String.data " Smith , John ,a,b,c,")).2
    (String.data " Smith ") (String.data " John ") "a".data "b".data "c".data []
    (by decide)
  rw [h]
  decide

theorem splitComma_mem : ∀ (s p : List Char), p ∈ splitComma s →
    ∀ c ∈ p, c ∈ s := by
  intro s
  induction s with
  | nil =>
    intro p hp c hc
    simp only [splitComma, List.mem_singleton] at hp
    subst hp
    simp at hc
  | cons x xs ih =>
    intro p hp c hc
    simp only [splitComma] at hp
    by_cases hx : x = ','
    · rw [if_pos hx] at hp
      rcases List.mem_cons.mp hp with rfl | hp2
      · simp at hc
      · exact List.mem_cons_of_mem x (ih p hp2 c hc)
    · rw [if_neg hx] at hp
      cases hsp : splitComma xs with
      | nil =>
        rw [hsp] at hp
        simp only [List.mem_singleton] at hp
        subst hp
        simp only [List.mem_singleton] at hc
        subst hc
        exact List.mem_cons_self c xs
      | cons q qs =>
        rw [hsp] at hp
        rcases List.mem_cons.mp hp with rfl | hp2
        · rcases List.mem_cons.mp hc with rfl | hc2
          · exact List.mem_cons_self c xs
          · exact List.mem_cons_of_mem x
              (ih q (by rw [hsp]; exact List.mem_cons_self q qs) c hc2)
        · exact List.mem_cons_of_mem x
            (ih p (by rw [hsp]; exact List.mem_cons_of_mem q hp2) c hc)

theorem trim_subset (s : List Char) : ∀ c ∈ trim s, c ∈ s := by
  intro c hc
  unfold trim at hc
  rw [List.mem_reverse] at hc
  have h1 : c ∈ (s.dropWhile isRustWhitespace).reverse :=
    List.dropWhile_subset _ hc
  rw [List.mem_reverse] at h1
  exact List.dropWhile_subset _ h1

theorem parse_some_elim {line : List Char} {r : AddressRecord}
    (h : parse_csv_line line = some r) :
    ∃ a b c d e f, splitComma line = [a, b, c, d, e, f] ∧
      r = ⟨trim a, trim b, trim c, trim d, trim e, trim f⟩ := by
  unfold parse_csv_line at h
  split at h
  · rename_i a b c d e f heq
    exact ⟨a, b, c, d, e, f, heq, (Option.some.inj h).symm⟩
  · cases h

theorem pad_right_filler (n : Nat) :
    pad_right [] n = some (List.replicate n ' ') := by
  rw [pad_right_ascii asciiStr_nil n]
  cases n with
  | zero => rfl
  | succ m => simp

set_option maxRecDepth 10000 in
/-- C1 counterexample: the claim quantifies over all valid 6-field lines, but
character counts and byte counts diverge on non-ASCII fields.  The line whose
first field is twelve `'é'`s followed by `'a'` (25 bytes, 13 characters)
parses successfully, yet its formatted line has 149 characters, not 161. -/
theorem format_length_cex :
    (parse_csv_line "ééééééééééééa,,,,,".data).isSome = true ∧
    ((parse_csv_line "ééééééééééééa,,,,,".data).bind
        format_fixed_width).map List.length = some 149 ∧
    (149 : Nat) ≠ 161 := by
  decide

/-- C1 (amended): every output line emitted for a successfully parsed ASCII
input line has exactly 161 characters, regardless of the individual field
lengths. -/
theorem format_fixed_width_length {line : List Char} (hline : asciiStr line)
    {r : AddressRecord} (h : parse_csv_line line = some r) :
    ∃ out, format_fixed_width r = some out ∧ out.length = 161 := by
  obtain ⟨a, b, c, d, e, f, hsplit, hr⟩ := parse_some_elim h
  have hpart : ∀ p ∈ splitComma line, asciiStr (trim p) := fun p hp x hx =>
    hline x (splitComma_mem line p hp x (trim_subset p x hx))
  have hmem : ∀ p ∈ [a, b, c, d, e, f], asciiStr (trim p) := by
    intro p hp
    exact hpart p (by rw [hsplit]; exact hp)
  subst hr
  obtain ⟨r1, e1, l1, _⟩ := pad_right_ascii_out (hmem a (by simp)) 25
  obtain ⟨r2, e2, l2, _⟩ := pad_right_ascii_out (hmem b (by simp)) 15
  obtain ⟨r3, e3, l3, _⟩ := pad_right_ascii_out (hmem c (by simp)) 30
  obtain ⟨r4, e4, l4, _⟩ := pad_right_ascii_out (hmem d (by simp)) 15
  obtain ⟨r5, e5, l5, _⟩ := pad_right_ascii_out (hmem e (by simp)) 3
  obtain ⟨r6, e6, l6, _⟩ := pad_right_ascii_out (hmem f (by simp)) 10
  refine ⟨r1 ++ List.replicate 5 ' ' ++ (r2 ++ List.replicate 5 ' ' ++
    (r3 ++ List.replicate 5 ' ' ++ (r4 ++ List.replicate 5 ' ' ++
    (r5 ++ List.replicate 5 ' ' ++ (r6 ++ List.replicate 38 ' ' ++ []))))),
    ?_, ?_⟩
  · simp only [format_fixed_width, AddressRecord.fields, FIELD_WIDTHS,
      formatFields, e1, e2, e3, e4, e5, e6, pad_right_filler,
      Option.some_bind, Option.bind_eq_bind]
    rfl
  · simp [l1, l2, l3, l4, l5, l6]

/-- Witness for C1 at the Smith scenario line. -/
theorem format_fixed_width_length_witness :
    ∃ out,
      format_fixed_width ⟨"Smith".data, "John".data, "123 Main St".data,
        "Springfield".data, "IL".data, "62701".data⟩ = some out ∧
      out.length = 161 :=
  @format_fixed_width_length
    ("Smith,John,123 Main St,Springfield,IL,62701".data) (by decide)
    ⟨"Smith".data, "John".data, "123 Main St".data, "Springfield".data,
      "IL".data, "62701".data⟩ (by decide)

set_option maxRecDepth 10000 in
/-- C7 counterexample: the layout claimed for Scenario A omits the 5-space
fillers after the first four fields; it totals 141 characters and is not the
line the code emits for `Smith,John,123 Main St,Springfield,IL,62701`. -/
theorem scenario_a_cex :
    ((parse_csv_line "Smith,John,123 Main St,Springfield,IL,62701".data).bind
        format_fixed_width) ≠
      some ("Smith".data ++ List.replicate 20 ' ' ++ "John".data ++
        List.replicate 11 ' ' ++ "123 Main St".data ++ List.replicate 19 ' ' ++
        "Springfield".data ++ List.replicate 4 ' ' ++ "IL".data ++
        List.replicate 6 ' ' ++ "62701".data ++ List.replicate 43 ' ') ∧
    ("Smith".data ++ List.replicate 20 ' ' ++ "John".data ++
        List.replicate 11 ' ' ++ "123 Main St".data ++ List.replicate 19 ' ' ++
        "Springfield".data ++ List.replicate 4 ' ' ++ "IL".data ++
        List.replicate 6 ' ' ++ "62701".data ++
        List.replicate 43 ' ').length = 141 := by
  decide

set_option maxRecDepth 10000 in
/-- C7 (amended): for `Smith,John,123 Main St,Springfield,IL,62701` the
emitted line is `Smith` + 25 spaces (20 padding + 5 filler), `John` + 16
spaces, `123 Main St` + 24 spaces, `Springfield` + 9 spaces, `IL` + 6 spaces,
`62701` + 43 spaces, 161 characters in total. -/
theorem scenario_a_output :
    ((parse_csv_line "Smith,John,123 Main St,Springfield,IL,62701".data).bind
        format_fixed_width) =
      some ("Smith".data ++ List.replicate 25 ' ' ++ "John".data ++
        List.replicate 16 ' ' ++ "123 Main St".data ++ List.replicate 24 ' ' ++
        "Springfield".data ++ List.replicate 9 ' ' ++ "IL".data ++
        List.replicate 6 ' ' ++ "62701".data ++ List.replicate 43 ' ') ∧
    ("Smith".data ++ List.replicate 25 ' ' ++ "John".data ++
        List.replicate 16 ' ' ++ "123 Main St".data ++ List.replicate 24 ' ' ++
        "Springfield".data ++ List.replicate 9 ' ' ++ "IL".data ++
        List.replicate 6 ' ' ++ "62701".data ++
        List.replicate 43 ' ').length = 161 := by
  decide

/-- C8: a line that is blank after trimming is skipped silently: the loop
state (outputs, warnings, count) is unchanged and processing continues with
the remaining lines. -/
theorem blank_line_skipped {i : Nat} {st : ProcState} {line : List Char}
    (h : (trim line).isEmpty = true) (rest : List (List Char)) :
    processFrom i st (line :: rest) = processFrom (i + 1) st rest := by
  simp [processFrom, processStep, h]

/-- Witness for C8 at a whitespace-only line. -/
theorem blank_line_skipped_witness :
    processFrom 0 ⟨[], [], 0⟩ (" \t ".data :: []) =
      processFrom 1 ⟨[], [], 0⟩ [] :=
  blank_line_skipped (by decide) []

/-- C4 counterexample: a whitespace-only line splits into one part (≠ 6), yet
the pipeline skips it silently: the run on just that line ends with no
output, **no warning**, and count 0. -/
theorem malformed_warning_cex :
    (splitComma " ".data).length ≠ 6 ∧
    process_csv [" ".data] = some ⟨[], [], 0⟩ := by
  decide

/-- C4 (amended): every line that is **not blank after trimming** and whose
comma split does not have exactly six parts produces no output line, appends
exactly one warning citing its 1-based line number, leaves the record count
unchanged, and processing continues with the remaining lines. -/
theorem malformed_line_warn {i : Nat} {st : ProcState} {line : List Char}
    (hb : (trim line).isEmpty = false)
    (hn : (splitComma line).length ≠ 6) (rest : List (List Char)) :
    processFrom i st (line :: rest) =
      processFrom (i + 1)
        { st with warnings := st.warnings ++ [i + 1] } rest := by
  have hp : parse_csv_line line = none := (parse_none_iff line).mpr hn
  simp [processFrom, processStep, hb, hp]

/-- Witness for C4 at the two-field line `a,b` in position 1. -/
theorem malformed_line_warn_witness :
    processFrom 0 ⟨[], [], 0⟩ ("a,b".data :: []) =
      processFrom 1 ⟨[], [1], 0⟩ [] :=
  malformed_line_warn (by decide) (by decide) []

theorem processStep_inv {st : ProcState} {i : Nat} {line : List Char}
    {st2 : ProcState} (hstep : processStep st i line = some st2)
    (hinv : st.count = st.outputs.length) :
    st2.count = st2.outputs.length := by
  unfold processStep at hstep
  by_cases hb : (trim line).isEmpty
  · rw [if_pos hb] at hstep
    rw [← Option.some.inj hstep]
    exact hinv
  · rw [if_neg hb] at hstep
    cases hp : parse_csv_line line with
    | some record =>
      rw [hp] at hstep
      dsimp only at hstep
      cases hf : format_fixed_width record with
      | none => rw [hf] at hstep; cases hstep
      | some out =>
        rw [hf] at hstep
        rw [← Option.some.inj hstep]
        simp [hinv]
    | none =>
      rw [hp] at hstep
      rw [← Option.some.inj hstep]
      exact hinv

theorem processFrom_inv : ∀ (lines : List (List Char)) (i : Nat)
    (st st' : ProcState), st.count = st.outputs.length →
    processFrom i st lines = some st' → st'.count = st'.outputs.length := by
  intro lines
  induction lines with
  | nil =>
    intro i st st' hinv h
    simp only [processFrom] at h
    rw [← Option.some.inj h]
    exact hinv
  | cons line rest ih =>
    intro i st st' hinv h
    simp only [processFrom] at h
    cases hstep : processStep st i line with
    | none => rw [hstep] at h; cases h
    | some st2 =>
      rw [hstep] at h
      exact ih (i + 1) st2 st' (processStep_inv hstep hinv) h

/-- C10: whenever `process_csv` completes, the final record count equals the
number of lines written to the output. -/
theorem process_csv_count {lines : List (List Char)} {st' : ProcState}
    (h : process_csv lines = some st') : st'.count = st'.outputs.length :=
  processFrom_inv lines 0 ⟨[], [], 0⟩ st' rfl h

set_option maxRecDepth 10000 in
/-- Witness for C10 at a run over one all-empty-fields record, which writes
one line of 161 spaces, and one malformed line. -/
theorem process_csv_count_witness :
    (ProcState.mk [List.replicate 161 ' '] [2] 1).count =
      (ProcState.mk [List.replicate 161 ' '] [2] 1).outputs.length :=
  @process_csv_count [",,,,,".data, "a,b".data]
    ⟨[List.replicate 161 ' '], [2], 1⟩ (by decide)

/-- C6 counterexample: with three positional arguments (argument vector of
length 4) the code uses the first two as the paths; it does not fall back to
the built-in defaults as claimed. -/
theorem select_paths_cex :
    select_paths ["prog".data, "in.csv".data, "out.txt".data, "x".data] =
      ("in.csv".data, "out.txt".data) ∧
    select_paths ["prog".data, "in.csv".data, "out.txt".data, "x".data] ≠
      (DEFAULT_INPUT, DEFAULT_OUTPUT) := by
  decide

/-- C6 (amended): with zero or one positional arguments (argument vector of
length ≤ 2, element 0 being the program name) both built-in defaults are
used; with two or more positional arguments the first is the input path and
the second the output path. -/
theorem select_paths_spec (args : List (List Char)) :
    (args.length ≤ 2 → select_paths args = (DEFAULT_INPUT, DEFAULT_OUTPUT)) ∧
    (2 < args.length →
      select_paths args = (args.getD 1 [], args.getD 2 [])) := by
  constructor
  · intro h
    rw [select_paths, if_neg (Nat.not_lt.mpr h)]
  · intro h
    rw [select_paths, if_pos h]

/-- Witness for C6: zero positional arguments use the defaults, and two
positional arguments are used as given. -/
theorem select_paths_spec_witness :
    select_paths ["prog".data] = (DEFAULT_INPUT, DEFAULT_OUTPUT) ∧
    select_paths ["prog".data, "a".data, "b".data] =
      (["prog".data, "a".data, "b".data].getD 1 [],
       ["prog".data, "a".data, "b".data].getD 2 []) :=
  ⟨(select_paths_spec ["prog".data]).1 (by decide),
   (select_paths_spec ["prog".data, "a".data, "b".data]).2 (by decide)⟩

end CsvConverter
